import Mathlib

/-!
Verification of the command-interpretation and dispatch engine of the
Siri voice assistant repository (`siri.py`, `siri_web_server.py`).

Strings are modelled as `List Char`; the Python string operations used by
the source (`lower`, `strip`, `replace(pat, "")`, substring membership
`in`, `startswith`) are embedded below.  External effects (launching an
app, opening a URL, text-to-speech) are modelled by returning the request
that the code would issue.
-/

namespace SiriSpec

/-- Command text, modelled as a list of characters. -/
abbrev Str := List Char

/-- Coerce a Lean string literal into the character-list model. -/
def w (s : String) : Str := s.data

/-- ASCII whitespace, as stripped by Python `str.strip()` on the
command vocabulary used here. -/
def isWs (c : Char) : Bool :=
  c = ' ' || c = '\t' || c = '\n' || c = '\r' || c = '\x0b' || c = '\x0c'

/-- ASCII lowercasing of one character, as Python `str.lower()` acts on
the ASCII command vocabulary. -/
def pyLowerChar (c : Char) : Char :=
  if 'A' ≤ c ∧ c ≤ 'Z' then Char.ofNat (c.toNat + 32) else c

/-- Python `s.lower()`. -/
def pyLower (s : Str) : Str := s.map pyLowerChar

/-- Python `s.strip()`: drop leading and trailing whitespace. -/
def pyStrip (s : Str) : Str :=
  ((s.dropWhile isWs).reverse.dropWhile isWs).reverse

/-- Python substring test `pat in hay`. -/
def containsSub (hay pat : Str) : Bool :=
  pat.isPrefixOf hay ||
    match hay with
    | [] => false
    | _ :: t => containsSub t pat

/-- Structural worker for `removeAll`; the fuel argument starts at the
list length and dominates it throughout, so the zero-fuel arm is never
reached. -/
def removeAllAux (pat : Str) : Nat → Str → Str
  | _, [] => []
  | 0, s => s
  | fuel + 1, c :: t =>
    if pat ≠ [] ∧ pat.isPrefixOf (c :: t) then
      removeAllAux pat fuel (List.drop pat.length (c :: t))
    else
      c :: removeAllAux pat fuel t

/-- Python `s.replace(pat, "")`: delete every (non-overlapping,
left-to-right) occurrence of `pat` from `s`. -/
def removeAll (pat : Str) (s : Str) : Str := removeAllAux pat s.length s

/-- Operating systems distinguished by `platform.system()` in `get_app_map`. -/
inductive Sys
  | darwin
  | windows
  | linux
deriving DecidableEq

/-- `get_app_map` from `siri.py`: the platform-specific app-name table. -/
def getAppMap : Sys → List (Str × Str)
  | .darwin =>
    [(w "chrome", w "Google Chrome"), (w "spotify", w "Spotify"),
     (w "safari", w "Safari"), (w "firefox", w "Firefox"),
     (w "code", w "Visual Studio Code"), (w "terminal", w "Terminal")]
  | .windows =>
    [(w "chrome", w "chrome.exe"), (w "spotify", w "Spotify.exe"),
     (w "firefox", w "firefox.exe"), (w "code", w "Code.exe"),
     (w "notepad", w "notepad.exe")]
  | .linux =>
    [(w "chrome", w "google-chrome"), (w "firefox", w "firefox"),
     (w "spotify", w "spotify"), (w "code", w "code"),
     (w "terminal", w "gnome-terminal")]

/-- `APP_MAP.keys()` for a given platform. -/
def appKeys (sys : Sys) : List Str := (getAppMap sys).map Prod.fst

/-- `WEB_DEFAULTS` from `siri.py` (insertion order preserved). -/
def webDefaults : List (Str × Str) :=
  [(w "youtube", w "https://youtube.com"),
   (w "gmail", w "https://mail.google.com"),
   (w "google", w "https://google.com"),
   (w "facebook", w "https://facebook.com"),
   (w "twitter", w "https://twitter.com"),
   (w "github", w "https://github.com"),
   (w "stackoverflow", w "https://stackoverflow.com"),
   (w "netflix", w "https://netflix.com"),
   (w "amazon", w "https://amazon.com"),
   (w "reddit", w "https://reddit.com"),
   (w "instagram", w "https://instagram.com"),
   (w "linkedin", w "https://linkedin.com"),
   (w "whatsapp", w "https://web.whatsapp.com"),
   (w "discord", w "https://discord.com"),
   (w "notion", w "https://notion.so"),
   (w "chatgpt", w "https://chat.openai.com"),
   (w "claude", w "https://claude.ai"),
   (w "spotify", w "https://open.spotify.com")]

/-- `WEB_DEFAULTS.keys()`. -/
def webKeys : List Str := webDefaults.map Prod.fst

/-- `SEARCH_PATTERNS` from `siri.py` (insertion order preserved). -/
def searchPatterns : List (Str × Str) :=
  [(w "youtube", w "https://www.youtube.com/results?search_query="),
   (w "spotify", w "https://open.spotify.com/search/"),
   (w "google", w "https://www.google.com/search?q="),
   (w "amazon", w "https://www.amazon.com/s?k="),
   (w "netflix", w "https://www.netflix.com/search?q=")]

/-- `SEARCH_PATTERNS.keys()`. -/
def searchPatternKeys : List Str := searchPatterns.map Prod.fst

/-- Association-list lookup used for the vocabulary tables. -/
def lookupStr (l : List (Str × Str)) (k : Str) : Option Str :=
  ((l.find? fun pr => pr.1 == k).map Prod.snd)

/-- The search-keyword list of `parse_search_command` (line 212), with its
duplicated `"watch"` entry kept as in the source. -/
def searchKeywords : List Str :=
  [w "play", w "search", w "find", w "look for", w "show me",
   w "watch", w "listen to", w "listen", w "watch"]

/-- The content-heuristic word list of `parse_search_command` (line 231). -/
def videoWords : List Str :=
  [w "video", w "videos", w "watch", w "movie", w "song", w "music"]

/-- The `clean_cmd` value computed on line 209 of `siri.py`: wake word and
imperative fillers removed from the lowercased, stripped command.  In the
source this value is computed and then never used. -/
def cleanCmdOf (cmd0 : Str) : Str :=
  let cmd := pyStrip (pyLower cmd0)
  pyStrip (removeAll (w "please") (removeAll (w "siri")
    (removeAll (w "start") (removeAll (w "launch") (removeAll (w "open") cmd)))))

/-- `parse_search_command` from `siri.py` (lines 203-252).  Returns
`(platform, query, remaining_cmd)` exactly as the source does: a
non-search command yields `(none, none, some cmd)` where `cmd` is the
lowercased, stripped input (line 218 returns `cmd`, not `clean_cmd`);
a search command yields a platform (found in the command, or defaulted)
and the extracted query (or `none` when the remainder is empty). -/
def parseSearchCommand (cmd0 : Str) : Option Str × Option Str × Option Str :=
  let cmd := pyStrip (pyLower cmd0)
  if searchKeywords.any (fun k => containsSub cmd k) then
    let platform :=
      match searchPatternKeys.find? (fun p => containsSub cmd p) with
      | some p => p
      | none =>
        if videoWords.any (fun v => containsSub cmd v) then w "youtube"
        else w "google"
    let q1 := (searchKeywords ++ [platform]).foldl (fun q k => removeAll k q) cmd
    let q2 := pyStrip (removeAll (w "the") (removeAll (w "a")
      (removeAll (w "some") (removeAll (w "for") (removeAll (w "and") q1)))))
    if q2 = [] then (some platform, none, none)
    else (some platform, some q2, none)
  else
    (none, none, some cmd)

/-- Length of a longest common subsequence of two character lists. -/
def lcsLen : Str → Str → Nat
  | [], _ => 0
  | _ :: _, [] => 0
  | a :: as, b :: bs =>
    if a = b then lcsLen as bs + 1
    else max (lcsLen (a :: as) bs) (lcsLen as (b :: bs))
termination_by x y => x.length + y.length
decreasing_by
  · simp only [List.length_cons]; omega
  · simp only [List.length_cons]; omega
  · simp only [List.length_cons]; omega

/-- Modelled from the spec: the similarity score (0-100) that
`fuzzywuzzy.process.extractOne` assigns to a query/candidate pair.  The
library itself is not part of the repository; following the spec's
"normalized edit-distance-based metric", the score is the indel-distance
similarity `200 * lcs / (|a| + |b|)`. -/
def simScore (a b : Str) : Nat :=
  if a.length + b.length = 0 then 100 else 200 * lcsLen a b / (a.length + b.length)

/-- Fold of `extractOne`: keep the current best-scoring candidate,
replacing it only on a strictly larger score (so the first candidate
achieving the maximum wins, matching Python's `max`). -/
def extractBest (q : Str) : Str × Nat → List Str → Str × Nat
  | best, [] => best
  | best, c :: cs =>
    extractBest q (if best.2 < simScore q c then (c, simScore q c) else best) cs

/-- Modelled from the spec: `fuzzywuzzy.process.extractOne` — the
best-scoring candidate together with its score, ties broken by first
position in iteration order. -/
def extractOne (q : Str) : List Str → Option (Str × Nat)
  | [] => none
  | c :: cs => some (extractBest q (c, simScore q c) cs)

/-- `fuzzy_match` from `siri.py` (lines 169-174): blank queries are
rejected without scoring; otherwise the best candidate is returned
exactly when its score reaches the threshold 60. -/
def fuzzyMatch (q : Str) (choices : List Str) : Option Str :=
  if (pyStrip q).isEmpty then none
  else
    match extractOne q choices with
    | none => none
    | some ms => if 60 ≤ ms.2 then some ms.1 else none

/-- Number of positions of `c` holding a character that occurs in `q`;
an upper bound for `lcsLen q c` used to evaluate no-match results. -/
def hitCount (q c : Str) : Nat := (c.filter fun x => q.contains x).length

/-- UTF-8 encoding of one character as byte values. -/
def utf8Bytes (c : Char) : List Nat :=
  if c.toNat < 128 then [c.toNat]
  else if c.toNat < 2048 then [192 + c.toNat / 64, 128 + c.toNat % 64]
  else if c.toNat < 65536 then
    [224 + c.toNat / 4096, 128 + c.toNat / 64 % 64, 128 + c.toNat % 64]
  else
    [240 + c.toNat / 262144, 128 + c.toNat / 4096 % 64,
     128 + c.toNat / 64 % 64, 128 + c.toNat % 64]

/-- UTF-8 decoding of a byte-value list; `none` on malformed input. -/
def utf8Decode : List Nat → Option Str
  | [] => some []
  | b :: bs =>
    if b < 128 then (utf8Decode bs).map (fun r => Char.ofNat b :: r)
    else if b < 192 then none
    else if b < 224 then
      if 1 ≤ bs.length ∧ 128 ≤ bs.headD 0 ∧ bs.headD 0 < 192 then
        (utf8Decode (bs.drop 1)).map
          (fun r => Char.ofNat ((b - 192) * 64 + (bs.headD 0 - 128)) :: r)
      else none
    else if b < 240 then
      if 2 ≤ bs.length ∧ (128 ≤ bs.headD 0 ∧ bs.headD 0 < 192)
          ∧ (128 ≤ (bs.drop 1).headD 0 ∧ (bs.drop 1).headD 0 < 192) then
        (utf8Decode (bs.drop 2)).map
          (fun r => Char.ofNat ((b - 224) * 4096 + (bs.headD 0 - 128) * 64
            + ((bs.drop 1).headD 0 - 128)) :: r)
      else none
    else if b < 248 then
      if 3 ≤ bs.length ∧ (128 ≤ bs.headD 0 ∧ bs.headD 0 < 192)
          ∧ (128 ≤ (bs.drop 1).headD 0 ∧ (bs.drop 1).headD 0 < 192)
          ∧ (128 ≤ (bs.drop 2).headD 0 ∧ (bs.drop 2).headD 0 < 192) then
        (utf8Decode (bs.drop 3)).map
          (fun r => Char.ofNat ((b - 240) * 262144 + (bs.headD 0 - 128) * 4096
            + ((bs.drop 1).headD 0 - 128) * 64 + ((bs.drop 2).headD 0 - 128)) :: r)
      else none
    else none
termination_by s => s.length
decreasing_by
  · simp only [List.length_cons]; omega
  · simp only [List.length_cons, List.length_drop]; omega
  · simp only [List.length_cons, List.length_drop]; omega
  · simp only [List.length_cons, List.length_drop]; omega

/-- Uppercase hexadecimal digit for a value below 16. -/
def hexDigitChar (n : Nat) : Char :=
  if n < 10 then Char.ofNat (48 + n) else Char.ofNat (55 + n)

/-- Value of a hexadecimal digit character. -/
def hexVal (c : Char) : Option Nat :=
  if '0' ≤ c ∧ c ≤ '9' then some (c.toNat - 48)
  else if 'A' ≤ c ∧ c ≤ 'F' then some (c.toNat - 55)
  else if 'a' ≤ c ∧ c ≤ 'f' then some (c.toNat - 87)
  else none

/-- Percent-encoding of one byte, `%XX` with uppercase hex. -/
def pctEncodeByte (b : Nat) : Str :=
  ['%', hexDigitChar (b / 16), hexDigitChar (b % 16)]

/-- Characters `urllib.parse.quote_plus` leaves unencoded
(letters, digits, and `_.-~`). -/
def safeChar (c : Char) : Bool :=
  if ('a' ≤ c ∧ c ≤ 'z') ∨ ('A' ≤ c ∧ c ≤ 'Z') ∨ ('0' ≤ c ∧ c ≤ '9')
      ∨ c = '_' ∨ c = '.' ∨ c = '-' ∨ c = '~' then true else false

/-- `urllib.parse.quote_plus` on one character: space becomes `+`, safe
characters pass through, everything else is percent-encoded bytewise. -/
def quotePlusChar (c : Char) : Str :=
  if c = ' ' then ['+']
  else if safeChar c then [c]
  else (utf8Bytes c).flatMap pctEncodeByte

/-- `urllib.parse.quote_plus` from `open_with_search` (line 261). -/
def quotePlus (q : Str) : Str := q.flatMap quotePlusChar

/-- Byte-level phase of `urllib.parse.unquote_plus`: `+` becomes a space
byte, valid `%XX` groups become their byte, everything else contributes
its UTF-8 bytes. -/
def pctDecodeBytes : Str → List Nat
  | [] => []
  | c :: rest =>
    if c = '+' then 32 :: pctDecodeBytes rest
    else if c = '%' ∧ 2 ≤ rest.length ∧ (hexVal (rest.headD ' ')).isSome
        ∧ (hexVal ((rest.drop 1).headD ' ')).isSome then
      (16 * (hexVal (rest.headD ' ')).getD 0
        + (hexVal ((rest.drop 1).headD ' ')).getD 0) :: pctDecodeBytes (rest.drop 2)
    else utf8Bytes c ++ pctDecodeBytes rest
termination_by s => s.length
decreasing_by
  · simp only [List.length_cons]; omega
  · simp only [List.length_cons, List.length_drop]; omega
  · simp only [List.length_cons]; omega

/-- `urllib.parse.unquote_plus`: percent-decode to bytes, then decode
the bytes as UTF-8. -/
def unquotePlus (s : Str) : Option Str := utf8Decode (pctDecodeBytes s)

/-- Association-list lookup result of `open_with_search` (lines
254-272): `none` models the "platform not supported for search" failure
branch, otherwise the search URL the code asks the browser to open. -/
def openWithSearch (platform q : Str) : Option Str :=
  match lookupStr searchPatterns platform with
  | none => none
  | some tmpl => some (tmpl ++ quotePlus q)

/-- The decision `open_command` (lines 274-340) reaches for a target:
which branch fires and which external operation (if any) is requested. -/
inductive OpenRoute
  | emptyTarget
  | searchOpen (platform query : Str)
  | clarify (platform : Str)
  | appLaunch (name target : Str)
  | siteOpen (name url : Str)
  | directUrl (url : Str)
  | noMatch (target : Str)
deriving DecidableEq

/-- The direct-URL heuristic of `open_command` (line 331). -/
def urlShaped (t : Str) : Bool :=
  (w "http").isPrefixOf t || containsSub t (w ".")

/-- URL-scheme normalization of `open_command` (lines 332-333). -/
def normalizeUrl (t : Str) : Str :=
  if (w "http").isPrefixOf t then t else w "https://" ++ t

/-- The plain-open resolution chain of `open_command` (lines 304-340):
apps first, then sites, then the direct-URL heuristic, else no match. -/
def resolveOpen (sys : Sys) (t : Str) : OpenRoute :=
  match fuzzyMatch t (appKeys sys) with
  | some a => .appLaunch a ((lookupStr (getAppMap sys) a).getD [])
  | none =>
    match fuzzyMatch t webKeys with
    | some s => .siteOpen s ((lookupStr webDefaults s).getD [])
    | none => if urlShaped t then .directUrl (normalizeUrl t) else .noMatch t

/-- Line 301-302 of `siri.py`: replace the target by `remaining_cmd`
when the latter is truthy. -/
def defaultedTarget (target : Str) : Option Str → Str
  | some rc => if rc.isEmpty then target else rc
  | none => target

/-- `open_command` from `siri.py` (lines 274-340) as a routing decision. -/
def openCommandRoute (sys : Sys) (target0 : Str) : OpenRoute :=
  let target := pyStrip (pyLower target0)
  if target.isEmpty then .emptyTarget
  else
    match parseSearchCommand target with
    | (some p, some q, _) => .searchOpen p q
    | (some p, none, _) => .clarify p
    | (none, _, r) => resolveOpen sys (defaultedTarget target r)

/-- Whether a route requests an external launch/open operation. -/
def routeRequestsOp : OpenRoute → Bool
  | .searchOpen _ _ => true
  | .appLaunch _ _ => true
  | .siteOpen _ _ => true
  | .directUrl _ => true
  | _ => false

/-- The clarification narration of `open_command` (line 297). -/
def clarifyText (p : Str) : Str :=
  w "What would you like me to search for on " ++ p ++ w "?"

/-- The shutdown synonym list of `handle_system_commands` (line 447). -/
def shutdownKeywordList : List Str :=
  [w "shutdown", w "stop", w "quit", w "exit", w "bye", w "goodbye", w "sleep"]

/-- Outcome of `handle_system_commands`: the boolean it returns together
with the narration it speaks. -/
structure SysOutcome where
  shouldShutdown : Bool
  narration : Option Str
deriving DecidableEq

/-- The farewell narration of `handle_system_commands` (line 449). -/
def farewellText : Str := w "Goodbye! Siri is shutting down now."

/-- The capability narration of `handle_system_commands` (line 454). -/
def helpTextStr : Str :=
  w "I can open apps like Chrome, Spotify, and Safari. I can also open websites like YouTube and Gmail. For advanced features, try saying: open YouTube and search for cooking videos, or open Spotify and find your favorite songs. Say shutdown to exit."

/-- `handle_system_commands` from `siri.py` (lines 442-457). -/
def handleSystemCommands (cmd0 : Str) : SysOutcome :=
  let cmd := pyStrip (pyLower cmd0)
  if shutdownKeywordList.any (fun k => containsSub cmd k) then
    ⟨true, some farewellText⟩
  else if containsSub cmd (w "help") || containsSub cmd (w "what can you do") then
    ⟨false, some helpTextStr⟩
  else
    ⟨false, none⟩

/-- Three-way routing decision shared by the voice loop and the web
endpoint: shut down, hand the text to `open_command`, or answer with the
fallback prompt. -/
inductive Route
  | shutdown
  | dispatch
  | fallback
deriving DecidableEq

/-- The keyword list of the dispatch condition (line 508 of `siri.py`
and line 470 of `siri_web_server.py`). -/
def actionKeywords : List Str :=
  [w "open", w "play", w "search", w "find", w "watch", w "listen",
   w "launch", w "start"]

/-- The routing decision of the voice-path session loop (`main`, lines
497-512 of `siri.py`) on a received command text. -/
def voiceRoute (sys : Sys) (cmd : Str) : Route :=
  if (handleSystemCommands cmd).shouldShutdown then .shutdown
  else if actionKeywords.any (fun k => containsSub cmd k)
      || (appKeys sys).any (fun a => containsSub cmd a)
      || webKeys.any (fun s => containsSub cmd s) then .dispatch
  else .fallback

/-- The routing decision of `process_voice_command` (lines 456-496 of
`siri_web_server.py`) on a received command text. -/
def webRoute (cmd0 : Str) : Route :=
  let c := pyStrip (pyLower cmd0)
  if (handleSystemCommands c).shouldShutdown then .shutdown
  else if actionKeywords.any (fun k => containsSub c k) then .dispatch
  else .fallback

/-! ### Properties of the similarity score -/

theorem lcsLen_le_left (a b : Str) : lcsLen a b ≤ a.length := by
  induction a, b using lcsLen.induct with
  | case1 x => simp [lcsLen]
  | case2 h t => simp [lcsLen]
  | case3 as c bs ih =>
    simp only [lcsLen, List.length_cons]
    simp only [if_true]
    omega
  | case4 a as b bs hne ih1 ih2 =>
    simp only [lcsLen, if_neg hne, List.length_cons] at *
    omega

theorem lcsLen_le_right (a b : Str) : lcsLen a b ≤ b.length := by
  induction a, b using lcsLen.induct with
  | case1 x => simp [lcsLen]
  | case2 h t => simp [lcsLen]
  | case3 as c bs ih =>
    simp only [lcsLen, List.length_cons]
    simp only [if_true]
    omega
  | case4 a as b bs hne ih1 ih2 =>
    simp only [lcsLen, if_neg hne, List.length_cons] at *
    omega

theorem lcsLen_self (a : Str) : lcsLen a a = a.length := by
  induction a with
  | nil => simp [lcsLen]
  | cons c t ih => simp [lcsLen, ih]

theorem lcsLen_full (a b : Str) (h1 : lcsLen a b = a.length)
    (h2 : lcsLen a b = b.length) : a = b := by
  induction a, b using lcsLen.induct with
  | case1 x =>
    simp only [lcsLen, List.length_nil] at h2
    exact (List.length_eq_zero.1 h2.symm).symm
  | case2 h t => simp [lcsLen] at h1
  | case3 as c bs ih =>
    simp only [lcsLen, List.length_cons] at h1 h2
    simp only [if_true] at h1 h2
    rw [ih (by omega) (by omega)]
  | case4 a as b bs hne ih1 ih2 =>
    exfalso
    have l1 := lcsLen_le_right (a :: as) bs
    have l2 := lcsLen_le_left as (b :: bs)
    simp only [lcsLen, if_neg hne, List.length_cons] at h1 h2
    omega

theorem simScore_le_100 (a b : Str) : simScore a b ≤ 100 := by
  unfold simScore
  split
  · omega
  · next h =>
    have h1 := lcsLen_le_left a b
    have h2 := lcsLen_le_right a b
    exact Nat.div_le_of_le_mul (by omega)

theorem simScore_self (a : Str) : simScore a a = 100 := by
  unfold simScore
  split
  · rfl
  · next h =>
    rw [lcsLen_self]
    have hl : 0 < a.length + a.length := Nat.pos_of_ne_zero h
    have he : 200 * a.length = 100 * (a.length + a.length) := by omega
    rw [he, Nat.mul_div_cancel _ hl]

theorem eq_of_simScore_100 (a b : Str) (h : simScore a b = 100) : a = b := by
  unfold simScore at h
  split at h
  · next h0 =>
    have ha : a = [] := List.length_eq_zero.1 (by omega)
    have hb : b = [] := List.length_eq_zero.1 (by omega)
    rw [ha, hb]
  · next h0 =>
    have hpos : 0 < a.length + b.length := Nat.pos_of_ne_zero h0
    have h100 : 100 ≤ 200 * lcsLen a b / (a.length + b.length) := by omega
    have hmul := (Nat.le_div_iff_mul_le hpos).1 h100
    have h1 := lcsLen_le_left a b
    have h2 := lcsLen_le_right a b
    exact lcsLen_full a b (by omega) (by omega)

theorem lcsLen_le_hitCount (q c : Str) : lcsLen q c ≤ hitCount q c := by
  induction q, c using lcsLen.induct with
  | case1 x => simp [lcsLen]
  | case2 h t => simp [lcsLen, hitCount]
  | case3 as c bs ih =>
    simp only [lcsLen, if_pos rfl]
    have hmem : (c :: as).contains c = true := by
      simp [List.contains, List.elem_iff]
    simp only [if_true]
    have hmono :
        (List.filter (fun x => as.contains x) bs).length
          ≤ (List.filter (fun x => (c :: as).contains x) bs).length := by
      refine List.Sublist.length_le (List.monotone_filter_right bs ?_)
      intro x hx
      simp only [List.contains, List.elem_iff] at hx ⊢
      exact List.mem_cons_of_mem _ hx
    simp only [hitCount, List.filter_cons, hmem, if_pos] at *
    simp only [List.length_cons]
    omega
  | case4 a as b bs hne ih1 ih2 =>
    simp only [lcsLen, if_neg hne]
    have hmono2 :
        (List.filter (fun x => as.contains x) (b :: bs)).length
          ≤ (List.filter (fun x => (a :: as).contains x) (b :: bs)).length := by
      refine List.Sublist.length_le (List.monotone_filter_right (b :: bs) ?_)
      intro x hx
      simp only [List.contains, List.elem_iff] at hx ⊢
      exact List.mem_cons_of_mem _ hx
    have hcons :
        (List.filter (fun x => (a :: as).contains x) bs).length
          ≤ (List.filter (fun x => (a :: as).contains x) (b :: bs)).length := by
      rw [List.filter_cons]
      split
      · simp only [List.length_cons]; omega
      · omega
    simp only [hitCount] at *
    omega

theorem simScore_lt_60_of_hit (q c : Str)
    (h : 200 * hitCount q c < 60 * (q.length + c.length)) : simScore q c < 60 := by
  unfold simScore
  split
  · next h0 => omega
  · next h0 =>
    have hpos : 0 < q.length + c.length := Nat.pos_of_ne_zero h0
    have hl := lcsLen_le_hitCount q c
    exact (Nat.div_lt_iff_lt_mul hpos).2 (by omega)

/-! ### Properties of extractOne and fuzzyMatch -/

theorem extractBest_spec (q : Str) (cs : List Str) :
    ∀ best : Str × Nat, best.2 = simScore q best.1 →
      (extractBest q best cs).2 = simScore q (extractBest q best cs).1
      ∧ ((extractBest q best cs).1 = best.1 ∨ (extractBest q best cs).1 ∈ cs)
      ∧ best.2 ≤ (extractBest q best cs).2
      ∧ ∀ c ∈ cs, simScore q c ≤ (extractBest q best cs).2 := by
  induction cs with
  | nil =>
    intro best hb
    simp [extractBest, hb]
  | cons c cs ih =>
    intro best hb
    rw [extractBest]
    by_cases hlt : best.2 < simScore q c
    · rw [if_pos hlt]
      obtain ⟨r1, r2, r3, r4⟩ := ih (c, simScore q c) rfl
      refine ⟨r1, ?_, ?_, ?_⟩
      · rcases r2 with h | h
        · exact Or.inr (h ▸ List.mem_cons_self c cs)
        · exact Or.inr (List.mem_cons_of_mem _ h)
      · exact le_trans (le_of_lt hlt) r3
      · intro x hx
        rcases List.mem_cons.1 hx with rfl | hx'
        · exact r3
        · exact r4 x hx'
    · rw [if_neg hlt]
      obtain ⟨r1, r2, r3, r4⟩ := ih best hb
      refine ⟨r1, ?_, r3, ?_⟩
      · rcases r2 with h | h
        · exact Or.inl h
        · exact Or.inr (List.mem_cons_of_mem _ h)
      · intro x hx
        rcases List.mem_cons.1 hx with rfl | hx'
        · exact le_trans (Nat.le_of_not_lt hlt) r3
        · exact r4 x hx'

theorem extractOne_spec (q : Str) (c : Str) (cs : List Str) (m : Str) (s : Nat)
    (h : extractOne q (c :: cs) = some (m, s)) :
    s = simScore q m ∧ m ∈ c :: cs ∧ ∀ x ∈ c :: cs, simScore q x ≤ s := by
  obtain ⟨r1, r2, r3, r4⟩ := extractBest_spec q cs (c, simScore q c) rfl
  have hr : extractBest q (c, simScore q c) cs = (m, s) := by
    simpa [extractOne] using h
  rw [hr] at r1 r2 r3 r4
  refine ⟨r1, ?_, ?_⟩
  · rcases r2 with h2 | h2
    · simp only at h2
      exact h2 ▸ List.mem_cons_self c cs
    · exact List.mem_cons_of_mem _ h2
  · intro x hx
    rcases List.mem_cons.1 hx with rfl | hx'
    · exact r3
    · exact r4 x hx'

theorem fuzzyMatch_none_of_low (q : Str) (cs : List Str)
    (h : ∀ c ∈ cs, simScore q c < 60) : fuzzyMatch q cs = none := by
  unfold fuzzyMatch
  split
  · rfl
  · cases cs with
    | nil => rfl
    | cons c cs =>
      obtain ⟨r1, r2, _, _⟩ := extractBest_spec q cs (c, simScore q c) rfl
      have hlow : (extractBest q (c, simScore q c) cs).2 < 60 := by
        rw [r1]
        rcases r2 with h2 | h2
        · exact h2 ▸ h c (List.mem_cons_self c cs)
        · exact h _ (List.mem_cons_of_mem _ h2)
      show (if 60 ≤ (extractBest q (c, simScore q c) cs).2
          then some (extractBest q (c, simScore q c) cs).1 else none) = none
      rw [if_neg (by omega)]

theorem fuzzyMatch_exact (q : Str) (cs : List Str)
    (hq : (pyStrip q).isEmpty = false) (hm : q ∈ cs) : fuzzyMatch q cs = some q := by
  unfold fuzzyMatch
  rw [hq]
  simp only [Bool.false_eq_true, if_false]
  cases cs with
  | nil => exact absurd hm (List.not_mem_nil q)
  | cons c cs =>
    obtain ⟨r1, r2, r3, r4⟩ := extractBest_spec q cs (c, simScore q c) rfl
    have hub : (extractBest q (c, simScore q c) cs).2 ≤ 100 := by
      rw [r1]; exact simScore_le_100 _ _
    have hlb : 100 ≤ (extractBest q (c, simScore q c) cs).2 := by
      rcases List.mem_cons.1 hm with rfl | hm'
      · calc 100 = simScore q q := (simScore_self q).symm
          _ ≤ _ := r3
      · calc 100 = simScore q q := (simScore_self q).symm
          _ ≤ _ := r4 q hm'
    have hbest : (extractBest q (c, simScore q c) cs).1 = q := by
      refine (eq_of_simScore_100 q _ ?_).symm
      omega
    show (if 60 ≤ (extractBest q (c, simScore q c) cs).2
        then some (extractBest q (c, simScore q c) cs).1 else none) = some q
    rw [if_pos (by omega), hbest]

/-! ### Percent-encoding round trip -/

theorem hexVal_hexDigitChar (v : Nat) (hv : v < 16) :
    hexVal (hexDigitChar v) = some v := by
  interval_cases v <;> decide

theorem utf8Bytes_lt_256 (c : Char) : ∀ b ∈ utf8Bytes c, b < 256 := by
  intro b hb
  have hval := c.valid
  simp only [UInt32.isValidChar, Nat.isValidChar] at hval
  have hvn : c.toNat = c.val.toNat := rfl
  rw [← hvn] at hval
  unfold utf8Bytes at hb
  split at hb
  · simp only [List.mem_singleton] at hb; omega
  · split at hb
    · simp only [List.mem_cons, List.not_mem_nil, or_false] at hb
      rcases hb with rfl | rfl <;> omega
    · split at hb
      · simp only [List.mem_cons, List.not_mem_nil, or_false] at hb
        rcases hb with rfl | rfl | rfl <;> omega
      · simp only [List.mem_cons, List.not_mem_nil, or_false] at hb
        rcases hb with rfl | rfl | rfl | rfl <;> omega

theorem pctDecode_encodeByte (b : Nat) (hb : b < 256) (t : Str) :
    pctDecodeBytes (pctEncodeByte b ++ t) = b :: pctDecodeBytes t := by
  have h1 : hexVal (hexDigitChar (b / 16)) = some (b / 16) :=
    hexVal_hexDigitChar _ (by omega)
  have h2 : hexVal (hexDigitChar (b % 16)) = some (b % 16) :=
    hexVal_hexDigitChar _ (by omega)
  show pctDecodeBytes ('%' :: hexDigitChar (b / 16) :: hexDigitChar (b % 16) :: t) = _
  rw [pctDecodeBytes.eq_2, if_neg (by decide), if_pos ?side]
  case side =>
    refine ⟨rfl, by simp, ?_, ?_⟩
    · simp only [List.headD_cons, h1, Option.isSome_some]
    · simp only [List.drop_succ_cons, List.drop_zero, List.headD_cons, h2, Option.isSome_some]
  simp only [List.headD_cons, List.drop_succ_cons, List.drop_zero, h1, h2,
    Option.getD_some]
  congr 1
  omega

theorem pctDecode_encBytes (bs : List Nat) (h : ∀ b ∈ bs, b < 256) (t : Str) :
    pctDecodeBytes (bs.flatMap pctEncodeByte ++ t) = bs ++ pctDecodeBytes t := by
  induction bs with
  | nil => simp
  | cons b bs ih =>
    show pctDecodeBytes ((pctEncodeByte b ++ bs.flatMap pctEncodeByte) ++ t) = _
    rw [List.append_assoc, pctDecode_encodeByte b (h b (List.mem_cons_self b bs)) _,
      ih (fun x hx => h x (List.mem_cons_of_mem _ hx))]
    rfl

theorem pctDecode_quotePlusChar (c : Char) (t : Str) :
    pctDecodeBytes (quotePlusChar c ++ t) = utf8Bytes c ++ pctDecodeBytes t := by
  unfold quotePlusChar
  by_cases hsp : c = ' '
  · subst hsp
    rw [if_pos rfl]
    show pctDecodeBytes ('+' :: t) = _
    rw [pctDecodeBytes.eq_2, if_pos rfl]
    rfl
  · rw [if_neg hsp]
    by_cases hsafe : safeChar c = true
    · rw [if_pos hsafe]
      have hne1 : ¬(c = '+') := by rintro rfl; revert hsafe; decide
      have hne2 : ¬(c = '%') := by rintro rfl; revert hsafe; decide
      show pctDecodeBytes (c :: t) = _
      rw [pctDecodeBytes.eq_2, if_neg hne1, if_neg (by rintro ⟨h, -⟩; exact hne2 h)]
    · rw [if_neg hsafe]
      exact pctDecode_encBytes _ (utf8Bytes_lt_256 c) t

theorem pctDecode_quotePlus (q : Str) :
    pctDecodeBytes (quotePlus q) = q.flatMap utf8Bytes := by
  have main : ∀ t, pctDecodeBytes (quotePlus q ++ t)
      = q.flatMap utf8Bytes ++ pctDecodeBytes t := by
    induction q with
    | nil => intro t; simp [quotePlus]
    | cons c q ih =>
      intro t
      show pctDecodeBytes ((quotePlusChar c ++ quotePlus q) ++ t) = _
      rw [List.append_assoc, pctDecode_quotePlusChar, ih]
      simp
  have h0 := main []
  simpa [pctDecodeBytes] using h0

theorem utf8Decode_encodeChar (c : Char) (t : List Nat) :
    utf8Decode (utf8Bytes c ++ t) = (utf8Decode t).map (fun r => c :: r) := by
  have hval := c.valid
  simp only [UInt32.isValidChar, Nat.isValidChar] at hval
  have hvn : c.toNat = c.val.toNat := rfl
  rw [← hvn] at hval
  unfold utf8Bytes
  by_cases h1 : c.toNat < 128
  · rw [if_pos h1]
    show utf8Decode (c.toNat :: t) = _
    rw [utf8Decode.eq_2, if_pos h1, Char.ofNat_toNat]
  · rw [if_neg h1]
    by_cases h2 : c.toNat < 2048
    · rw [if_pos h2]
      show utf8Decode ((192 + c.toNat / 64) :: (128 + c.toNat % 64) :: t) = _
      rw [utf8Decode.eq_2, if_neg (by omega), if_neg (by omega), if_pos (by omega),
        if_pos (by simp only [List.headD_cons, List.length_cons]; omega)]
      simp only [List.headD_cons, List.drop_succ_cons, List.drop_zero]
      have harg : (192 + c.toNat / 64 - 192) * 64 + (128 + c.toNat % 64 - 128)
          = c.toNat := by omega
      rw [harg, Char.ofNat_toNat]
    · rw [if_neg h2]
      by_cases h3 : c.toNat < 65536
      · rw [if_pos h3]
        show utf8Decode ((224 + c.toNat / 4096) :: (128 + c.toNat / 64 % 64)
            :: (128 + c.toNat % 64) :: t) = _
        rw [utf8Decode.eq_2, if_neg (by omega), if_neg (by omega), if_neg (by omega),
          if_pos (by omega),
          if_pos (by
            simp only [List.headD_cons, List.length_cons, List.drop_succ_cons,
              List.drop_zero]
            omega)]
        simp only [List.headD_cons, List.drop_succ_cons, List.drop_zero]
        have harg : (224 + c.toNat / 4096 - 224) * 4096
            + (128 + c.toNat / 64 % 64 - 128) * 64 + (128 + c.toNat % 64 - 128)
            = c.toNat := by omega
        rw [harg, Char.ofNat_toNat]
      · rw [if_neg h3]
        show utf8Decode ((240 + c.toNat / 262144) :: (128 + c.toNat / 4096 % 64)
            :: (128 + c.toNat / 64 % 64) :: (128 + c.toNat % 64) :: t) = _
        rw [utf8Decode.eq_2, if_neg (by omega), if_neg (by omega), if_neg (by omega),
          if_neg (by omega), if_pos (by omega),
          if_pos (by
            simp only [List.headD_cons, List.length_cons, List.drop_succ_cons,
              List.drop_zero]
            omega)]
        simp only [List.headD_cons, List.drop_succ_cons, List.drop_zero]
        have harg : (240 + c.toNat / 262144 - 240) * 262144
            + (128 + c.toNat / 4096 % 64 - 128) * 4096
            + (128 + c.toNat / 64 % 64 - 128) * 64 + (128 + c.toNat % 64 - 128)
            = c.toNat := by omega
        rw [harg, Char.ofNat_toNat]

theorem utf8Decode_flatMap (q : Str) : utf8Decode (q.flatMap utf8Bytes) = some q := by
  induction q with
  | nil => simp [utf8Decode]
  | cons c q ih =>
    show utf8Decode (utf8Bytes c ++ q.flatMap utf8Bytes) = _
    rw [utf8Decode_encodeChar, ih]
    rfl

theorem unquotePlus_quotePlus (q : Str) : unquotePlus (quotePlus q) = some q := by
  unfold unquotePlus
  rw [pctDecode_quotePlus, utf8Decode_flatMap]

/-- Fuzzy resolution of the claim-C8 probe text against every platform's
app vocabulary yields no match: every candidate scores below 60. -/
theorem fuzzyApps_noMatch (sys : Sys) :
    fuzzyMatch (w "open zzzznotarealapp") (appKeys sys) = none := by
  apply fuzzyMatch_none_of_low
  intro c hc
  cases sys <;>
    simp only [appKeys, getAppMap, List.map_cons, List.map_nil, List.mem_cons,
      List.not_mem_nil, or_false] at hc
  · rcases hc with rfl | rfl | rfl | rfl | rfl | rfl <;>
      exact simScore_lt_60_of_hit _ _ (by decide)
  · rcases hc with rfl | rfl | rfl | rfl | rfl <;>
      exact simScore_lt_60_of_hit _ _ (by decide)
  · rcases hc with rfl | rfl | rfl | rfl | rfl <;>
      exact simScore_lt_60_of_hit _ _ (by decide)

/-- Fuzzy resolution of the claim-C8 probe text against the site
vocabulary yields no match: every candidate scores below 60. -/
theorem fuzzyWeb_noMatch :
    fuzzyMatch (w "open zzzznotarealapp") webKeys = none := by
  apply fuzzyMatch_none_of_low
  intro c hc
  simp only [webKeys, webDefaults, List.map_cons, List.map_nil, List.mem_cons,
    List.not_mem_nil, or_false] at hc
  rcases hc with rfl | rfl | rfl | rfl | rfl | rfl | rfl | rfl | rfl | rfl | rfl
    | rfl | rfl | rfl | rfl | rfl | rfl | rfl <;>
    exact simScore_lt_60_of_hit _ _ (by decide)

/-! ## Claim theorems -/

/-- C1: every command string containing one of the shutdown synonyms as a
substring of its lowercased, trimmed form makes the system-command
handler signal shutdown with the farewell narration, regardless of any
other content in the string. -/
theorem c1_shutdown_synonym (cmd : Str)
    (h : ∃ k ∈ shutdownKeywordList, containsSub (pyStrip (pyLower cmd)) k = true) :
    handleSystemCommands cmd = ⟨true, some farewellText⟩ := by
  have ha : shutdownKeywordList.any
      (fun k => containsSub (pyStrip (pyLower cmd)) k) = true :=
    List.any_eq_true.2 h
  simp only [handleSystemCommands, ha]
  simp only [if_true]

/-- Witness for C1 at the concrete command "please stop now". -/
theorem c1_shutdown_synonym_witness :
    handleSystemCommands (w "please stop now") = ⟨true, some farewellText⟩ :=
  c1_shutdown_synonym (w "please stop now") ⟨w "stop", by decide, by decide⟩

/-- C2 counterexample: the command "youtube" is dispatched to the
interpreter by the voice loop (it contains a site-vocabulary name) but
falls through to the fallback prompt in the HTTP endpoint (which only
checks the action keywords), so the two paths do not make the same
routing decision on every text. -/
theorem c2_routing_counterexample :
    voiceRoute Sys.darwin (w "youtube") = Route.dispatch
    ∧ webRoute (w "youtube") = Route.fallback := by
  constructor <;> decide

/-- C2 amended: on command texts unchanged by lowercasing and trimming,
the HTTP endpoint and the voice loop agree on the shutdown decision; and
they make the same dispatch-versus-fallback decision whenever the text
contains one of the eight action keywords or contains neither an
app-vocabulary nor a site-vocabulary name. -/
theorem c2_routing_agreement (sys : Sys) (cmd : Str)
    (hn : pyStrip (pyLower cmd) = cmd) :
    (voiceRoute sys cmd = Route.shutdown ↔ webRoute cmd = Route.shutdown)
    ∧ ((actionKeywords.any (fun k => containsSub cmd k) = true
        ∨ ((appKeys sys).any (fun a => containsSub cmd a) = false
           ∧ webKeys.any (fun s => containsSub cmd s) = false))
      → voiceRoute sys cmd = webRoute cmd) := by
  simp only [voiceRoute, webRoute, hn]
  cases hs : (handleSystemCommands cmd).shouldShutdown
  · simp only [hs, Bool.false_eq_true, if_false]
    constructor
    · constructor <;> intro h <;> (exfalso; revert h; split <;> simp)
    · intro hor
      rcases hor with hkw | ⟨ha, hw⟩
      · simp [hkw]
      · simp only [ha, hw, Bool.or_false]
  · simp only [hs, if_true]
    exact ⟨trivial, fun _ => trivial⟩

/-- Witness for C2 amended at the concrete command "open spotify". -/
theorem c2_routing_agreement_witness :
    voiceRoute Sys.darwin (w "open spotify") = webRoute (w "open spotify") :=
  (c2_routing_agreement Sys.darwin (w "open spotify") (by decide)).2
    (Or.inl (by decide))

/-- C3: for the input "siri open spotify" the parser returns the raw
lowercased command as the residual text, not the filler-stripped form:
the `clean_cmd` value of line 209 (which does equal "spotify") is
discarded, and line 218 returns `cmd` unchanged. -/
theorem c3_residual_keeps_fillers :
    parseSearchCommand (w "siri open spotify")
      = (none, none, some (w "siri open spotify"))
    ∧ cleanCmdOf (w "siri open spotify") = w "spotify"
    ∧ w "siri open spotify" ≠ w "spotify" := by
  refine ⟨by decide, by decide, by decide⟩

/-- C4: parsing "open youtube and find cooking videos" detects platform
"youtube" but extracts the query "open    cooking videos" (the
extraction starts from the unstripped command, so the filler "open" and
the interior spaces survive), and the dispatched URL therefore encodes
that longer query, not "cooking videos". -/
theorem c4_search_query_value :
    parseSearchCommand (w "open youtube and find cooking videos")
      = (some (w "youtube"), some (w "open    cooking videos"), none)
    ∧ (∀ sys, openCommandRoute sys (w "open youtube and find cooking videos")
        = OpenRoute.searchOpen (w "youtube") (w "open    cooking videos"))
    ∧ openWithSearch (w "youtube") (w "open    cooking videos")
      = some (w "https://www.youtube.com/results?search_query=open++++cooking+videos")
    ∧ w "open    cooking videos" ≠ w "cooking videos" := by
  refine ⟨by decide, fun sys => ?_, by decide, by decide⟩
  cases sys <;> decide

/-- C5: for every platform of the search-endpoint table and every
non-empty query, the dispatched URL is the platform's template
concatenated with the percent-encoded query, and percent-decoding that
query component yields back exactly the original query string. -/
theorem c5_search_url_roundtrip (p q : Str) (hp : p ∈ searchPatternKeys)
    (_hq : q ≠ []) :
    (∃ tmpl, lookupStr searchPatterns p = some tmpl
      ∧ openWithSearch p q = some (tmpl ++ quotePlus q))
    ∧ unquotePlus (quotePlus q) = some q := by
  constructor
  · simp only [searchPatternKeys, searchPatterns, List.map_cons, List.map_nil,
      List.mem_cons, List.not_mem_nil, or_false] at hp
    rcases hp with rfl | rfl | rfl | rfl | rfl <;> exact ⟨_, rfl, rfl⟩
  · exact unquotePlus_quotePlus q

/-- Witness for C5 at platform "youtube" and query "cooking videos". -/
theorem c5_search_url_roundtrip_witness :
    (∃ tmpl, lookupStr searchPatterns (w "youtube") = some tmpl
      ∧ openWithSearch (w "youtube") (w "cooking videos")
          = some (tmpl ++ quotePlus (w "cooking videos")))
    ∧ unquotePlus (quotePlus (w "cooking videos")) = some (w "cooking videos") :=
  c5_search_url_roundtrip (w "youtube") (w "cooking videos") (by decide) (by decide)

/-- C6: fuzzy resolution returns no-match on blank queries without
scoring; otherwise, the candidate reported by extraction is a
maximum-scoring member of the candidate list and is returned exactly
when its score is at least 60; and a query equal to a candidate name
resolves to that name. -/
theorem c6_fuzzy_contract :
    ∀ (q : Str) (cs : List Str), cs ≠ [] →
      (((pyStrip q).isEmpty = true → fuzzyMatch q cs = none)
      ∧ ((pyStrip q).isEmpty = false → ∀ m s, extractOne q cs = some (m, s) →
          m ∈ cs ∧ s = simScore q m ∧ (∀ c ∈ cs, simScore q c ≤ s)
          ∧ (60 ≤ s → fuzzyMatch q cs = some m)
          ∧ (s < 60 → fuzzyMatch q cs = none))
      ∧ ((pyStrip q).isEmpty = false → q ∈ cs → fuzzyMatch q cs = some q)) := by
  intro q cs hne
  refine ⟨?_, ?_, ?_⟩
  · intro hb
    unfold fuzzyMatch
    rw [hb]
    rw [if_pos rfl]
  · intro hb m s hex
    cases cs with
    | nil => exact absurd rfl hne
    | cons c cs' =>
      obtain ⟨h1, h2, h3⟩ := extractOne_spec q c cs' m s hex
      refine ⟨h2, h1, h3, ?_, ?_⟩
      · intro h60
        unfold fuzzyMatch
        rw [hb]
        simp only [Bool.false_eq_true, if_false]
        rw [hex]
        show (if 60 ≤ s then some m else none) = some m
        rw [if_pos h60]
      · intro hlt
        unfold fuzzyMatch
        rw [hb]
        simp only [Bool.false_eq_true, if_false]
        rw [hex]
        show (if 60 ≤ s then some m else none) = none
        rw [if_neg (by omega)]
  · intro hb hm
    exact fuzzyMatch_exact q cs hb hm

/-- Witness for C6: a blank query yields no-match, and an exact candidate
name resolves to itself. -/
theorem c6_fuzzy_contract_witness :
    fuzzyMatch (w "") [w "chrome"] = none
    ∧ fuzzyMatch (w "code") [w "chrome", w "code"] = some (w "code") := by
  constructor
  · exact (c6_fuzzy_contract (w "") [w "chrome"] (by decide)).1 (by decide)
  · exact (c6_fuzzy_contract (w "code") [w "chrome", w "code"]
      (by decide)).2.2 (by decide) (by decide)

/-- C7: the input "search for" parses to a search intent with platform
defaulted to "google" and no query, and dispatch produces the
clarification outcome that asks what to search for, requesting no
launch operation. -/
theorem c7_incomplete_search :
    parseSearchCommand (w "search for") = (some (w "google"), none, none)
    ∧ (∀ sys, openCommandRoute sys (w "search for") = OpenRoute.clarify (w "google"))
    ∧ routeRequestsOp (OpenRoute.clarify (w "google")) = false
    ∧ clarifyText (w "google")
        = w "What would you like me to search for on google?" := by
  refine ⟨by decide, fun sys => ?_, by decide, by decide⟩
  cases sys <;> decide

/-- C8: on a normalized plain-open command the dispatcher reduces to the
resolution chain, which tries apps first, then sites, then the
direct-URL heuristic, producing the no-match outcome only when all three
fail; in particular "open zzzznotarealapp" reaches the no-match
outcome. -/
theorem c8_plain_open_order :
    (∀ (sys : Sys) (t : Str), pyStrip (pyLower t) = t → t.isEmpty = false →
      searchKeywords.any (fun k => containsSub t k) = false →
      openCommandRoute sys t = resolveOpen sys t
      ∧ (∀ a, fuzzyMatch t (appKeys sys) = some a →
          resolveOpen sys t
            = OpenRoute.appLaunch a ((lookupStr (getAppMap sys) a).getD []))
      ∧ (fuzzyMatch t (appKeys sys) = none → ∀ m, fuzzyMatch t webKeys = some m →
          resolveOpen sys t = OpenRoute.siteOpen m ((lookupStr webDefaults m).getD []))
      ∧ (fuzzyMatch t (appKeys sys) = none → fuzzyMatch t webKeys = none →
          urlShaped t = true → resolveOpen sys t = OpenRoute.directUrl (normalizeUrl t))
      ∧ (fuzzyMatch t (appKeys sys) = none → fuzzyMatch t webKeys = none →
          urlShaped t = false → resolveOpen sys t = OpenRoute.noMatch t))
    ∧ ∀ sys, openCommandRoute sys (w "open zzzznotarealapp")
        = OpenRoute.noMatch (w "open zzzznotarealapp") := by
  have main : ∀ (sys : Sys) (t : Str), pyStrip (pyLower t) = t →
      t.isEmpty = false →
      searchKeywords.any (fun k => containsSub t k) = false →
      openCommandRoute sys t = resolveOpen sys t
      ∧ (∀ a, fuzzyMatch t (appKeys sys) = some a →
          resolveOpen sys t
            = OpenRoute.appLaunch a ((lookupStr (getAppMap sys) a).getD []))
      ∧ (fuzzyMatch t (appKeys sys) = none → ∀ m, fuzzyMatch t webKeys = some m →
          resolveOpen sys t = OpenRoute.siteOpen m ((lookupStr webDefaults m).getD []))
      ∧ (fuzzyMatch t (appKeys sys) = none → fuzzyMatch t webKeys = none →
          urlShaped t = true → resolveOpen sys t = OpenRoute.directUrl (normalizeUrl t))
      ∧ (fuzzyMatch t (appKeys sys) = none → fuzzyMatch t webKeys = none →
          urlShaped t = false → resolveOpen sys t = OpenRoute.noMatch t) := by
    intro sys t hn hne hkw
    have hp : parseSearchCommand t = (none, none, some t) := by
      simp only [parseSearchCommand, hn, hkw, Bool.false_eq_true, if_false]
    have hroute : openCommandRoute sys t = resolveOpen sys t := by
      simp only [openCommandRoute, hn, hne, Bool.false_eq_true, if_false, hp,
        defaultedTarget]
    refine ⟨hroute, ?_, ?_, ?_, ?_⟩
    · intro a ha
      simp only [resolveOpen, ha]
    · intro ha m hm
      simp only [resolveOpen, ha, hm]
    · intro ha hm hurl
      simp only [resolveOpen, ha, hm, hurl, if_true]
    · intro ha hm hurl
      simp only [resolveOpen, ha, hm, hurl, Bool.false_eq_true, if_false]
  refine ⟨main, ?_⟩
  intro sys
  obtain ⟨heq, _, _, _, hnm⟩ :=
    main sys (w "open zzzznotarealapp") (by decide) (by decide) (by decide)
  rw [heq]
  exact hnm (fuzzyApps_noMatch sys) fuzzyWeb_noMatch (by decide)

/-- Witness for C8 at the normalized plain-open command "chrome". -/
theorem c8_plain_open_order_witness :
    openCommandRoute Sys.darwin (w "chrome") = resolveOpen Sys.darwin (w "chrome") :=
  (c8_plain_open_order.1 Sys.darwin (w "chrome") (by decide) (by decide)
    (by decide)).1

/-- C9: every utterance classified as a search intent (it contains a
search keyword) receives a non-null platform: either a platform name of
the search-endpoint table found in the normalized utterance, or one of
the defaults "youtube"/"google"; the query may still be null, as the
input "search for" demonstrates. -/
theorem c9_search_platform_nonnull :
    (∀ cmd : Str, searchKeywords.any
        (fun k => containsSub (pyStrip (pyLower cmd)) k) = true →
      ∃ p, (parseSearchCommand cmd).1 = some p
        ∧ ((p ∈ searchPatternKeys
              ∧ containsSub (pyStrip (pyLower cmd)) p = true)
           ∨ p = w "youtube" ∨ p = w "google"))
    ∧ (parseSearchCommand (w "search for")).1 = some (w "google")
    ∧ (parseSearchCommand (w "search for")).2.1 = none := by
  refine ⟨?_, by decide, by decide⟩
  intro cmd hks
  simp only [parseSearchCommand, hks]
  simp only [if_true]
  cases hf : searchPatternKeys.find?
      (fun p => containsSub (pyStrip (pyLower cmd)) p) with
  | some p =>
    dsimp only
    refine ⟨p, ?_, Or.inl ⟨List.mem_of_find?_eq_some hf, List.find?_some hf⟩⟩
    split <;> rfl
  | none =>
    dsimp only
    by_cases hv : (videoWords.any
        fun v => containsSub (pyStrip (pyLower cmd)) v) = true
    · rw [if_pos hv]
      refine ⟨w "youtube", ?_, Or.inr (Or.inl rfl)⟩
      split <;> rfl
    · rw [if_neg hv]
      refine ⟨w "google", ?_, Or.inr (Or.inr rfl)⟩
      split <;> rfl

/-- Witness for C9 at the concrete search command "search for cats". -/
theorem c9_search_platform_nonnull_witness :
    ∃ p, (parseSearchCommand (w "search for cats")).1 = some p
      ∧ ((p ∈ searchPatternKeys
            ∧ containsSub (pyStrip (pyLower (w "search for cats"))) p = true)
         ∨ p = w "youtube" ∨ p = w "google") :=
  c9_search_platform_nonnull.1 (w "search for cats") (by decide)

/-- C10: every platform the parser returns is a key of the
search-endpoint table, so the search-URL builder's unsupported-platform
failure branch is unreachable on parser-produced platforms. -/
theorem c10_platform_supported :
    ∀ (cmd p : Str), (parseSearchCommand cmd).1 = some p →
      p ∈ searchPatternKeys ∧ ∀ q, ∃ u, openWithSearch p q = some u := by
  intro cmd p h
  have hp : p ∈ searchPatternKeys := by
    simp only [parseSearchCommand] at h
    by_cases hks : searchKeywords.any
        (fun k => containsSub (pyStrip (pyLower cmd)) k) = true
    · rw [if_pos hks] at h
      cases hf : searchPatternKeys.find?
          (fun pl => containsSub (pyStrip (pyLower cmd)) pl) with
      | some p' =>
        rw [hf] at h
        dsimp only at h
        have hmem := List.mem_of_find?_eq_some hf
        split at h <;>
          · have hpp : p' = p := by simpa using h
            exact hpp ▸ hmem
      | none =>
        rw [hf] at h
        dsimp only at h
        by_cases hv : (videoWords.any
            fun v => containsSub (pyStrip (pyLower cmd)) v) = true
        · rw [if_pos hv] at h
          split at h <;>
            · have hpp : w "youtube" = p := by simpa using h
              rw [← hpp]; decide
        · rw [if_neg hv] at h
          split at h <;>
            · have hpp : w "google" = p := by simpa using h
              rw [← hpp]; decide
    · rw [if_neg hks] at h
      simp at h
  refine ⟨hp, ?_⟩
  intro q
  simp only [searchPatternKeys, searchPatterns, List.map_cons, List.map_nil,
    List.mem_cons, List.not_mem_nil, or_false] at hp
  rcases hp with rfl | rfl | rfl | rfl | rfl <;> exact ⟨_, rfl⟩

/-- Witness for C10 at the concrete command "play some jazz", whose
parsed platform defaults to "google". -/
theorem c10_platform_supported_witness :
    w "google" ∈ searchPatternKeys
    ∧ ∀ q, ∃ u, openWithSearch (w "google") q = some u :=
  c10_platform_supported (w "play some jazz") (w "google") (by decide)

end SiriSpec
